import Mathlib

/-!
Verification of the serving/lifecycle engine of the `offer` HTTP file-offering
program, as a shallow embedding of its Go source (`offer.go`).

Bytes are modelled as `Nat`, byte slices as `List Nat`, Go errors relevant to
the probe as an inductive type.  Readers (`io.Reader`) are modelled as state
machines: a state type `σ` together with a read function
`σ → Nat → List Nat × Option GoErr × σ` mirroring Go's
`Read(p []byte) (n int, err error)` where the `Nat` argument is `len(p)`.
-/

/-- Go errors that flow through `tryReadAll`: `io.EOF`, `io.ErrUnexpectedEOF`
and the program's own `errTooBig`. -/
inductive GoErr where
  | eof
  | unexpectedEOF
  | tooBig
deriving DecidableEq, Repr

/-- The loop inside `io.ReadAtLeast`: `for n < min && err == nil { nn, err =
r.Read(buf[n:]); n += nn }`.  `fuel` bounds the number of iterations; every
reader used below finishes in at most two iterations, and `readFull` supplies
more than enough fuel for them. -/
def readLoop {σ : Type} (read : σ → Nat → List Nat × Option GoErr × σ) :
    Nat → σ → List Nat → Nat → List Nat × Option GoErr × σ
  | 0, s, acc, _ => (acc, none, s)
  | fuel + 1, s, acc, n =>
    if acc.length < n then
      match read s (n - acc.length) with
      | (chunk, none, s') => readLoop read fuel s' (acc ++ chunk) n
      | (chunk, some e, s') => (acc ++ chunk, some e, s')
    else (acc, none, s)

/-- `io.ReadFull(r, buf)` = `io.ReadAtLeast(r, buf, len(buf))`: run the read
loop, then apply the fix-ups `if n >= min { err = nil } else if n > 0 && err ==
EOF { err = ErrUnexpectedEOF }`. -/
def readFull {σ : Type} (read : σ → Nat → List Nat × Option GoErr × σ)
    (s : σ) (n : Nat) : List Nat × Option GoErr × σ :=
  let r := readLoop read (n + 1 + 1) s [] n
  if n ≤ r.1.length then (r.1, none, r.2.2)
  else if 0 < r.1.length ∧ r.2.1 = some GoErr.eof then
    (r.1, some GoErr.unexpectedEOF, r.2.2)
  else r

/-- `tryReadAll(r, bufSize)` from `offer.go`: fill a `bufSize`-byte buffer with
`io.ReadFull`; on short read treat `ErrUnexpectedEOF` (and `EOF` with zero
bytes) as success; otherwise attempt one further 1-byte read, report
`errTooBig` when it yields a byte with a nil error, and drop a plain `EOF`. -/
def tryReadAll {σ : Type} (read : σ → Nat → List Nat × Option GoErr × σ)
    (s : σ) (bufSize : Nat) : List Nat × Option GoErr :=
  let r := readFull read s bufSize
  match r.2.1 with
  | some e =>
    if e = GoErr.unexpectedEOF ∨ (e = GoErr.eof ∧ r.1.length = 0) then (r.1, none)
    else (r.1, some e)
  | none =>
    let x := read r.2.2 1
    let err3 := if 0 < x.1.length ∧ x.2.1 = none then some GoErr.tooBig else x.2.1
    let err4 := if err3 = some GoErr.eof then none else err3
    (r.1 ++ x.1, err4)

/-- The reader semantics of `strings.NewReader` (and of any source that
signals end-of-source only on a read after the last byte): a read on a
non-empty remainder returns the requested bytes with a nil error, and a read
on an empty remainder returns `(0, io.EOF)`. -/
def stringsRead : List Nat → Nat → List Nat × Option GoErr × List Nat :=
  fun s k => if s.isEmpty then ([], some GoErr.eof, s) else (s.take k, none, s.drop k)

/-- A reader that signals end-of-source together with the last bytes it
delivers: a read that exhausts the remainder returns the bytes and `io.EOF`
simultaneously, as `io.Reader` explicitly permits. -/
def eagerRead : List Nat → Nat → List Nat × Option GoErr × List Nat :=
  fun s k =>
    if s.isEmpty then ([], some GoErr.eof, s)
    else if s.length ≤ k then (s, some GoErr.eof, [])
    else (s.take k, none, s.drop k)

example : tryReadAll stringsRead [] 0 = ([], none) := by decide
example : tryReadAll stringsRead [97] 1 = ([97], none) := by decide
example : tryReadAll stringsRead [97, 97] 1 = ([97, 97], some GoErr.tooBig) := by decide
example : tryReadAll stringsRead [1, 2, 3, 4, 5, 6] 6 = ([1, 2, 3, 4, 5, 6], none) := by decide
example : tryReadAll stringsRead [1, 2, 3, 4, 5, 6] 5 =
    ([1, 2, 3, 4, 5, 6], some GoErr.tooBig) := by decide
example : tryReadAll eagerRead [97, 98, 99] 2 = ([97, 98, 99], none) := by decide

theorem readLoop_succ {σ : Type} (read : σ → Nat → List Nat × Option GoErr × σ)
    (fuel : Nat) (s : σ) (acc : List Nat) (n : Nat) :
    readLoop read (fuel + 1) s acc n =
      if acc.length < n then
        match read s (n - acc.length) with
        | (chunk, none, s') => readLoop read fuel s' (acc ++ chunk) n
        | (chunk, some e, s') => (acc ++ chunk, some e, s')
      else (acc, none, s) := rfl

theorem readFull_strings (s : List Nat) (B : Nat) :
    readFull stringsRead s B =
      if B ≤ s.length then (s.take B, none, s.drop B)
      else if s.length = 0 then ([], some GoErr.eof, [])
      else (s, some GoErr.unexpectedEOF, []) := by
  match B, s with
  | 0, s => simp [readFull, readLoop_succ]
  | B + 1, [] => simp [readFull, readLoop_succ, stringsRead]
  | B + 1, a :: l =>
    by_cases hB : B + 1 ≤ (a :: l).length
    · have hBl : B ≤ l.length := by
        simp only [List.length_cons] at hB; omega
      have htk2 : (List.take B l).length = B := by
        rw [List.length_take]; omega
      simp [readFull, readLoop_succ, stringsRead, htk2, hBl]
    · have h2 : l.length < B := by
        simp only [List.length_cons] at hB; omega
      have hc1 : ¬ (B + 1 ≤ l.length + 1) := by omega
      have hc2 : ¬ (B ≤ l.length) := by omega
      have hdr : List.drop B l = [] := List.drop_eq_nil_of_le (Nat.le_of_lt h2)
      have htk : List.take B l = l := List.take_of_length_le (Nat.le_of_lt h2)
      simp only [readFull, readLoop_succ, stringsRead]
      simp [h2, Nat.le_of_lt h2, hc1, hc2, hdr, htk]

/-- Claim C1: for every threshold B and input of L bytes delivered by a reader
that signals end-of-source only on a read after the last byte, `tryReadAll`
succeeds returning exactly the L input bytes when L ≤ B (including L = B and
B = 0 with empty input), and fails with `errTooBig` when L > B, returning a
prefix of the input of exactly B+1 bytes. -/
theorem tryReadAll_strings_spec (B : Nat) (input : List Nat) :
    (input.length ≤ B → tryReadAll stringsRead input B = (input, none)) ∧
    (B < input.length →
      tryReadAll stringsRead input B = (input.take (B + 1), some GoErr.tooBig) ∧
      (input.take (B + 1)).length = B + 1 ∧
      ∃ rest, input = input.take (B + 1) ++ rest) := by
  constructor
  · intro h
    by_cases hfit : input.length = B
    · have h1 : B ≤ input.length := by omega
      have htk : input.take B = input := List.take_of_length_le (by omega)
      have hdr : input.drop B = [] := List.drop_eq_nil_of_le (by omega)
      simp [tryReadAll, readFull_strings, h1, htk, hdr, stringsRead]
    · have hnb : ¬ B ≤ input.length := by omega
      cases input with
      | nil =>
        have hB0 : ¬ B = 0 := by simp only [List.length_nil] at hnb; omega
        simp [tryReadAll, readFull_strings, hnb, hB0]
      | cons a l =>
        have hnb' : ¬ (B ≤ l.length + 1) := by
          simp only [List.length_cons] at hnb; omega
        simp [tryReadAll, readFull_strings, hnb, hnb']
  · intro h
    have h1 : B ≤ input.length := by omega
    have hd : input.drop B ≠ [] := by
      intro e
      have := congrArg List.length e
      simp only [List.length_drop, List.length_nil] at this
      omega
    have hlen1 : ((input.drop B).take 1).length = 1 := by
      rw [List.length_take, List.length_drop]; omega
    refine ⟨?_, ?_, ⟨input.drop (B + 1), (List.take_append_drop _ _).symm⟩⟩
    · rw [List.take_add]
      simp [tryReadAll, readFull_strings, h1, stringsRead, hd, hlen1]
    · rw [List.length_take]; omega

theorem tryReadAll_strings_spec_witness :
    tryReadAll stringsRead [7, 7] 2 = ([7, 7], none) ∧
    tryReadAll stringsRead [7, 7, 7] 2 = ([7, 7, 7], some GoErr.tooBig) := by
  have h1 := (tryReadAll_strings_spec 2 [7, 7]).1 (by decide)
  have h2 := ((tryReadAll_strings_spec 2 [7, 7, 7]).2 (by decide)).1
  exact ⟨h1, h2⟩

theorem readFull_eager_lt (input : List Nat) (B : Nat) (h : B < input.length) :
    readFull eagerRead input B = (input.take B, none, input.drop B) := by
  cases B with
  | zero => simp [readFull, readLoop_succ]
  | succ B =>
    cases input with
    | nil => simp at h
    | cons a l =>
      have hBl : B < l.length := by simp only [List.length_cons] at h; omega
      have hlek : ¬ ((a :: l).length ≤ B + 1) := by
        simp only [List.length_cons]; omega
      have hlek' : ¬ (l.length + 1 ≤ B + 1) := by omega
      have htk2 : (List.take B l).length = B := by rw [List.length_take]; omega
      simp [readFull, readLoop_succ, eagerRead, htk2, hlek, hlek']

/-- Claim C2, counterexample: with threshold B = 2 and a source of 3 bytes
whose final read reports the last byte together with `io.EOF`, `tryReadAll`
does NOT fail with `errTooBig`: it succeeds, returning all B+1 bytes with a
nil error (the `err == nil` guard keeps `errTooBig` from being set, and the
simultaneous `io.EOF` is then dropped). -/
theorem tryReadAll_eager_cex :
    tryReadAll eagerRead [97, 98, 99] 2 = ([97, 98, 99], none) ∧
    (tryReadAll eagerRead [97, 98, 99] 2).2 ≠ some GoErr.tooBig := by decide

/-- Claim C2 (amended): when the source fills the B-byte buffer exactly and
the one further read yields one byte while simultaneously signaling
end-of-source, `tryReadAll` succeeds, returning the B+1 bytes read with a nil
error (it does not report `errTooBig` in this case). -/
theorem tryReadAll_eager_boundary (B : Nat) (input : List Nat)
    (h : input.length = B + 1) :
    tryReadAll eagerRead input B = (input, none) := by
  have hlt : B < input.length := by omega
  have hd1 : (input.drop B).length = 1 := by rw [List.length_drop]; omega
  obtain ⟨c, hc⟩ := List.length_eq_one.mp hd1
  have hsplit : input.take B ++ [c] = input := by
    rw [← hc]; exact List.take_append_drop B input
  simp [tryReadAll, readFull_eager_lt input B hlt, eagerRead, hc, hsplit]

theorem tryReadAll_eager_boundary_witness :
    tryReadAll eagerRead [5, 6] 1 = ([5, 6], none) :=
  tryReadAll_eager_boundary 1 [5, 6] rfl

/-- The state shared by the closures `limitNReqs` builds for a non-zero
budget: the captured counter `n` (mutated only under the mutex `mu`) and
whether the `sync.Once` guarding `close(done)` has already run. -/
structure Gate where
  n : Nat
  fired : Bool
deriving DecidableEq, Repr

/-- The entry critical section of the gated handler: under `mu`, when
`n == 0` reject (the caller then answers 503 without invoking the wrapped
handler), otherwise decrement `n` and admit.  The `Bool` says whether the
request was admitted. -/
def gateEnter (g : Gate) : Bool × Gate :=
  if g.n = 0 then (false, g) else (true, { g with n := g.n - 1 })

/-- The after-handler critical section: under `mu`, when `n == 0` run
`once.Do(func() { close(done) })`, which closes `done` only the first time.
The `Bool` says whether the exhaustion signal fired now. -/
def gateExit (g : Gate) : Bool × Gate :=
  if g.n = 0 ∧ g.fired = false then (true, { g with fired := true })
  else (false, g)

/-- One scheduling event of the concurrent server: a request reaches the
gate's entry section (`enter`), or an admitted request's handler returns and
the request runs the after-handler section (`leave`).  Both sections are
atomic (held under `mu`), so every concurrent execution of `limitNReqs` is
observationally some sequence of these events. -/
inductive Ev where
  | enter
  | leave
deriving DecidableEq, Repr

def countEnters : List Ev → Nat
  | [] => 0
  | Ev.enter :: t => countEnters t + 1
  | Ev.leave :: t => countEnters t

/-- The observable outcome of running a sequence of events against the gated
handler: final gate state, how many requests were admitted (invoked the
wrapped handler), how many were rejected with 503, how many times the
exhaustion signal fired, and how many admitted handlers are still running. -/
structure GateRun where
  gate : Gate
  admitted : Nat
  rejected : Nat
  fires : Nat
  pending : Nat
deriving DecidableEq, Repr

/-- Run a sequence of events against the mutex/once wrapper `limitNReqs`
builds for a non-zero budget.  `p` counts admitted requests whose handler has
not yet returned; a `leave` without a pending admitted request cannot occur
(a rejected request returns before reaching the handler), so it yields
`none`. -/
def runGate : Gate → Nat → List Ev → Option GateRun
  | g, p, [] => some ⟨g, 0, 0, 0, p⟩
  | g, p, Ev.enter :: t =>
    let e := gateEnter g
    if e.1 then
      (runGate e.2 (p + 1) t).map fun res => { res with admitted := res.admitted + 1 }
    else
      (runGate e.2 p t).map fun res => { res with rejected := res.rejected + 1 }
  | g, p, Ev.leave :: t =>
    match p with
    | 0 => none
    | p' + 1 =>
      let e := gateExit g
      (runGate e.2 p' t).map fun res =>
        if e.1 then { res with fires := res.fires + 1 } else res

/-- Run a sequence of events against the handler that `limitNReqs` returns
unchanged for the reserved budget 0: every request invokes the wrapped
handler, none is rejected, and there is no exhaustion signal at all. -/
def runPass : Nat → List Ev → Option (Nat × Nat × Nat × Nat)
  | p, [] => some (0, 0, 0, p)
  | p, Ev.enter :: t =>
    (runPass (p + 1) t).map fun x => (x.1 + 1, x.2.1, x.2.2.1, x.2.2.2)
  | p, Ev.leave :: t =>
    match p with
    | 0 => none
    | p' + 1 => runPass p' t

/-- `limitNReqs(n, done, h)`: `if n == 0 { return h }` (pass-through),
otherwise the gated wrapper; the result is `(admitted, rejected, fires,
pending)` counts of a whole execution. -/
def runLimitNReqs (n : Nat) (p : Nat) (t : List Ev) : Option (Nat × Nat × Nat × Nat) :=
  if n = 0 then runPass p t
  else (runGate ⟨n, false⟩ p t).map fun res =>
    (res.admitted, res.rejected, res.fires, res.pending)

theorem runPass_spec (t : List Ev) : ∀ p a r f pf,
    runPass p t = some (a, r, f, pf) → a = countEnters t ∧ r = 0 ∧ f = 0 := by
  induction t with
  | nil =>
    intro p a r f pf h
    simp only [runPass, Option.some.injEq, Prod.mk.injEq] at h
    simp [countEnters]
    omega
  | cons e t ih =>
    intro p a r f pf h
    cases e with
    | enter =>
      simp only [runPass] at h
      obtain ⟨x, hx, hmap⟩ := Option.map_eq_some'.mp h
      obtain ⟨x1, x2, x3, x4⟩ := x
      simp at hmap
      obtain ⟨h1, h2, h3, h4⟩ := hmap
      obtain ⟨ha, hr, hf⟩ := ih (p + 1) x1 x2 x3 x4 hx
      simp [countEnters]
      omega
    | leave =>
      cases p with
      | zero => simp [runPass] at h
      | succ p' =>
        simp only [runPass] at h
        simpa [countEnters] using ih p' a r f pf h

theorem runGate_enter (g : Gate) (p : Nat) (t : List Ev) :
    runGate g p (Ev.enter :: t) =
      if g.n = 0 then
        (runGate g p t).map fun res => { res with rejected := res.rejected + 1 }
      else
        (runGate { g with n := g.n - 1 } (p + 1) t).map fun res =>
          { res with admitted := res.admitted + 1 } := by
  by_cases h : g.n = 0 <;> simp [runGate, gateEnter, h]

theorem runGate_leave_zero (g : Gate) (t : List Ev) :
    runGate g 0 (Ev.leave :: t) = none := by
  simp [runGate]

theorem runGate_leave_succ (g : Gate) (p' : Nat) (t : List Ev) :
    runGate g (p' + 1) (Ev.leave :: t) =
      if g.n = 0 ∧ g.fired = false then
        (runGate { g with fired := true } p' t).map fun res =>
          { res with fires := res.fires + 1 }
      else (runGate g p' t).map fun res => res := by
  by_cases h : g.n = 0 ∧ g.fired = false <;> simp [runGate, gateExit, h]

theorem runGate_spec (t : List Ev) :
    ∀ (m : Nat) (fired : Bool) (p : Nat) (res : GateRun),
    runGate ⟨m, fired⟩ p t = some res → res.pending = 0 →
    res.admitted = min m (countEnters t) ∧
    res.rejected = countEnters t - res.admitted ∧
    res.fires = (if fired then 0
      else if m ≤ countEnters t ∧ 1 ≤ m + p then 1 else 0) := by
  induction t with
  | nil =>
    intro m fired p res h hp
    simp only [runGate, Option.some.injEq] at h
    subst h
    have hp' : p = 0 := hp
    subst hp'
    simp only [countEnters]
    refine ⟨by simp, by simp, ?_⟩
    cases fired with
    | true => simp
    | false =>
      simp only [Bool.false_eq_true, if_false]
      split <;> omega
  | cons e t ih =>
    intro m fired p res h hp
    cases e with
    | enter =>
      rw [runGate_enter] at h
      by_cases hm : m = 0
      · rw [if_pos hm] at h
        obtain ⟨x, hx, hmap⟩ := Option.map_eq_some'.mp h
        have hA : res.admitted = x.admitted := by rw [← hmap]
        have hR : res.rejected = x.rejected + 1 := by rw [← hmap]
        have hF : res.fires = x.fires := by rw [← hmap]
        have hP : res.pending = x.pending := by rw [← hmap]
        obtain ⟨ha, hr, hf⟩ := ih m fired p x hx (by omega)
        subst hm
        simp only [countEnters]
        refine ⟨by omega, by omega, ?_⟩
        rw [hF, hf]
        cases fired with
        | true => rfl
        | false => by_cases hp1 : 1 ≤ p <;> simp [hp1]
      · rw [if_neg hm] at h
        obtain ⟨x, hx, hmap⟩ := Option.map_eq_some'.mp h
        have hA : res.admitted = x.admitted + 1 := by rw [← hmap]
        have hR : res.rejected = x.rejected := by rw [← hmap]
        have hF : res.fires = x.fires := by rw [← hmap]
        have hP : res.pending = x.pending := by rw [← hmap]
        obtain ⟨ha, hr, hf⟩ := ih (m - 1) fired (p + 1) x hx (by omega)
        simp only [countEnters]
        refine ⟨by omega, by omega, ?_⟩
        rw [hF, hf]
        cases fired with
        | true => rfl
        | false =>
          by_cases hcond : m ≤ countEnters t + 1
          · have hc1 : m - 1 ≤ countEnters t ∧ 1 ≤ m - 1 + (p + 1) := by omega
            have hc2 : m ≤ countEnters t + 1 ∧ 1 ≤ m + p := by omega
            rw [if_pos hc1, if_pos hc2]
          · have hc1 : ¬ (m - 1 ≤ countEnters t ∧ 1 ≤ m - 1 + (p + 1)) := by omega
            have hc2 : ¬ (m ≤ countEnters t + 1 ∧ 1 ≤ m + p) := by omega
            rw [if_neg hc1, if_neg hc2]
    | leave =>
      cases p with
      | zero =>
        rw [runGate_leave_zero] at h
        simp at h
      | succ p' =>
        rw [runGate_leave_succ] at h
        by_cases hC : m = 0 ∧ fired = false
        · obtain ⟨hm, hfd⟩ := hC
          subst hm
          subst hfd
          rw [if_pos ⟨rfl, rfl⟩] at h
          obtain ⟨x, hx, hmap⟩ := Option.map_eq_some'.mp h
          have hA : res.admitted = x.admitted := by rw [← hmap]
          have hR : res.rejected = x.rejected := by rw [← hmap]
          have hF : res.fires = x.fires + 1 := by rw [← hmap]
          have hP : res.pending = x.pending := by rw [← hmap]
          obtain ⟨ha, hr, hf⟩ := ih 0 true p' x hx (by omega)
          simp only [countEnters]
          refine ⟨by omega, by omega, ?_⟩
          simp only [if_true] at hf
          rw [hF, hf]
          simp only [Bool.false_eq_true, if_false]
          rw [if_pos (by omega : (0 : Nat) ≤ countEnters t ∧ 1 ≤ 0 + (p' + 1))]
        · rw [if_neg hC] at h
          obtain ⟨x, hx, hmap⟩ := Option.map_eq_some'.mp h
          have hxr : x = res := hmap
          subst hxr
          obtain ⟨ha, hr, hf⟩ := ih m fired p' x hx hp
          simp only [countEnters]
          refine ⟨ha, hr, ?_⟩
          rw [hf]
          cases fired with
          | true => rfl
          | false =>
            have hm1 : 1 ≤ m := by
              rcases Nat.eq_zero_or_pos m with h0 | h1
              · exact absurd ⟨h0, rfl⟩ hC
              · exact h1
            by_cases hcond : m ≤ countEnters t
            · have hc1 : m ≤ countEnters t ∧ 1 ≤ m + p' := by omega
              have hc2 : m ≤ countEnters t ∧ 1 ≤ m + (p' + 1) := by omega
              rw [if_pos hc1, if_pos hc2]
            · have hc1 : ¬ (m ≤ countEnters t ∧ 1 ≤ m + p') := by omega
              have hc2 : ¬ (m ≤ countEnters t ∧ 1 ≤ m + (p' + 1)) := by omega
              rw [if_neg hc1, if_neg hc2]

/-- Claim C3: `limitNReqs` with configured budget n: when n is the reserved
unlimited value 0 it is a pure pass-through (every request is forwarded and
the exhaustion signal never fires); when n = N ≥ 1, in any completed
execution of any number R of gated requests under any interleaving, exactly
min(N, R) requests invoke the wrapped handler (so exactly N once R ≥ N), the
remaining R - min(N, R) are answered 503 without invoking it, and the
one-shot exhaustion signal fires exactly once, after an admitted handler
returns with the count having reached 0 (and never while R < N). -/
theorem limitNReqs_spec (n : Nat) (t : List Ev) (a r f : Nat)
    (h : runLimitNReqs n 0 t = some (a, r, f, 0)) :
    (n = 0 → a = countEnters t ∧ r = 0 ∧ f = 0) ∧
    (1 ≤ n → a = min n (countEnters t) ∧ r = countEnters t - a ∧
      f = if n ≤ countEnters t then 1 else 0) := by
  constructor
  · intro hn
    subst hn
    simp only [runLimitNReqs, if_pos rfl] at h
    exact runPass_spec t 0 a r f 0 h
  · intro hn
    have hne : ¬ n = 0 := by omega
    simp only [runLimitNReqs, if_neg hne] at h
    obtain ⟨res, hres, hmap⟩ := Option.map_eq_some'.mp h
    simp only [Prod.mk.injEq] at hmap
    obtain ⟨h1, h2, h3, h4⟩ := hmap
    obtain ⟨ha, hr, hf⟩ := runGate_spec t n false 0 res hres h4
    simp [hn] at hf
    refine ⟨by omega, by omega, ?_⟩
    rw [← h3, hf]

/-- A completed interleaved execution used as a concrete instance: three
requests against a budget of 2, the third arriving before the first two
handlers have both returned. -/
def gateTraceW : List Ev := [Ev.enter, Ev.enter, Ev.leave, Ev.enter, Ev.leave]

theorem limitNReqs_spec_witness :
    2 = min 2 (countEnters gateTraceW) ∧
    1 = countEnters gateTraceW - 2 ∧
    (1 : Nat) = if 2 ≤ countEnters gateTraceW then 1 else 0 := by
  have h := (limitNReqs_spec 2 gateTraceW 2 1 1 (by decide)).2 (by omega)
  exact ⟨h.1, h.2.1, h.2.2⟩

/-- `fmt.Sprintf("%x  %s\n", h.Sum(nil), f.name)` from `sendChecksum` in
`offer.go`: the hex digest, two spaces, the payload name and a newline. -/
def mkSum (hexDigest fname : String) : String :=
  hexDigest ++ "  " ++ fname ++ "\n"

/-- The line format the specification describes for a checksum response:
algorithm name, one space, hex digest, one space, base name, newline.
Written from the spec for comparison with `mkSum`, which is written from the
source. -/
def specChecksumLine (algo hexDigest fname : String) : String :=
  algo ++ " " ++ hexDigest ++ " " ++ fname ++ "\n"

/-- The state captured by one `sendChecksum` closure (one per algorithm):
whether its `sync.Once` has run, and the memoized formatted `sum` (the Go
zero value `""` until a computation succeeds). -/
structure SumState where
  onceDone : Bool
  sum : String
deriving DecidableEq, Repr

/-- An HTTP response as far as the checksum endpoints are concerned: a 200
body, or an error status page. -/
inductive Resp where
  | ok (body : String)
  | err (code : Nat)
deriving DecidableEq, Repr

/-- The `once.Do` body of `sendChecksum`: open a reader over the payload and
digest it.  `digest k` is the hex digest the k-th run of the body would
produce, or `none` when `f.reader()` or `io.Copy` fails; the body stores the
formatted sum on success and returns leaving `sum` empty on failure.  The
second component counts how many times the digest computation has run. -/
def checksumOnce (digest : Nat → Option String) (fname : String)
    (s : SumState × Nat) : SumState × Nat :=
  if s.1.onceDone then s
  else
    match digest s.2 with
    | some hex => (⟨true, mkSum hex fname⟩, s.2 + 1)
    | none => (⟨true, s.1.sum⟩, s.2 + 1)

/-- One request to a checksum endpoint: `once.Do(...)`, then
`if sum == "" { 500 } else { body sum }`. -/
def checksumReq (digest : Nat → Option String) (fname : String)
    (s : SumState × Nat) : (SumState × Nat) × Resp :=
  let s' := checksumOnce digest fname s
  if s'.1.sum = "" then (s', Resp.err 500) else (s', Resp.ok s'.1.sum)

/-- R requests to one checksum endpoint processed in sequence; `sync.Once`
serializes racing bodies and later callers wait for the first, so any
concurrent execution is observationally some such sequence. -/
def runChecksum (digest : Nat → Option String) (fname : String) :
    SumState × Nat → Nat → (SumState × Nat) × List Resp
  | s, 0 => (s, [])
  | s, R + 1 =>
    let x := checksumReq digest fname s
    let rest := runChecksum digest fname x.1 R
    (rest.1, x.2 :: rest.2)

/-- The state of a `sendChecksum` closure at server start: `once` not yet
run, `sum` empty, no digest computation performed. -/
def checksumInit : SumState × Nat := (⟨false, ""⟩, 0)

theorem mkSum_ne_empty (hexDigest fname : String) : mkSum hexDigest fname ≠ "" := by
  intro h
  have h2 := congrArg String.length h
  simp only [mkSum, String.length_append] at h2
  have h3 : ("\n" : String).length = 1 := rfl
  have h4 : ("" : String).length = 0 := rfl
  omega

theorem runChecksum_done (digest : Nat → Option String) (fname : String)
    (st : SumState) (k R : Nat) (h : st.onceDone = true) :
    runChecksum digest fname (st, k) R =
      ((st, k),
        List.replicate R (if st.sum = "" then Resp.err 500 else Resp.ok st.sum)) := by
  induction R with
  | zero => simp [runChecksum]
  | succ R ih =>
    by_cases hs : st.sum = "" <;>
      simp [runChecksum, checksumReq, checksumOnce, h, hs, ih, List.replicate_succ]

/-- Claim C4: for each checksum endpoint the digest computation runs at most
once over the process lifetime (exactly `min R 1` times over R requests,
whatever the outcome), and when the single computation succeeds every
request — first or repeated — receives the byte-identical formatted body. -/
theorem sendChecksum_once_spec (digest : Nat → Option String) (fname : String)
    (R : Nat) :
    (runChecksum digest fname checksumInit R).1.2 = min R 1 ∧
    (∀ hex, digest 0 = some hex →
      (runChecksum digest fname checksumInit R).2 =
        List.replicate R (Resp.ok (mkSum hex fname))) := by
  cases R with
  | zero => simp [runChecksum, checksumInit]
  | succ R =>
    cases hd : digest 0 with
    | some hex0 =>
      have hstep : checksumReq digest fname checksumInit =
          ((⟨true, mkSum hex0 fname⟩, 1), Resp.ok (mkSum hex0 fname)) := by
        simp [checksumReq, checksumOnce, checksumInit, hd, mkSum_ne_empty]
      constructor
      · simp [runChecksum, hstep,
          runChecksum_done digest fname ⟨true, mkSum hex0 fname⟩ 1 R rfl]
      · intro hex hhex
        have hx : hex0 = hex := Option.some.inj hhex
        subst hx
        simp [runChecksum, hstep,
          runChecksum_done digest fname ⟨true, mkSum hex0 fname⟩ 1 R rfl,
          mkSum_ne_empty, List.replicate_succ]
    | none =>
      have hstep : checksumReq digest fname checksumInit =
          ((⟨true, ""⟩, 1), Resp.err 500) := by
        simp [checksumReq, checksumOnce, checksumInit, hd]
      constructor
      · simp [runChecksum, hstep, runChecksum_done digest fname ⟨true, ""⟩ 1 R rfl]
      · intro hex hhex
        exact absurd hhex (by simp)

/-- A digest source that always succeeds with hex digest "ab". -/
def digestConstW : Nat → Option String := fun _ => some "ab"

theorem sendChecksum_once_spec_witness :
    (runChecksum digestConstW "f" checksumInit 3).2 =
      List.replicate 3 (Resp.ok (mkSum "ab" "f")) :=
  (sendChecksum_once_spec digestConstW "f" 3).2 "ab" rfl

/-- A digest source whose first computation fails (unreadable payload) but
would succeed on any retry. -/
def digestFailThenOk : Nat → Option String :=
  fun k => if k = 0 then none else some "ab"

/-- Claim C5, counterexample: after a first digest failure, a later request
for the same algorithm does NOT retry: the `sync.Once` is already consumed,
so the second request is answered 500 and the computation count stays at 1
even though the payload has become readable again (`digestFailThenOk 1`
would succeed). -/
theorem checksum_failure_cex :
    (runChecksum digestFailThenOk "f" checksumInit 2).2 =
      [Resp.err 500, Resp.err 500] ∧
    (runChecksum digestFailThenOk "f" checksumInit 2).1.2 = 1 ∧
    digestFailThenOk 1 = some "ab" := by decide

/-- Claim C5 (amended): a checksum digest failure produces a 500 error
response for that request and IS effectively cached: the once-guard is
consumed by the failed computation, so every later request for the same
algorithm receives the 500 error response without the computation ever being
retried, even if the payload's disk file becomes readable again. -/
theorem checksum_failure_cached (digest : Nat → Option String) (fname : String)
    (R : Nat) (h : digest 0 = none) :
    (runChecksum digest fname checksumInit R).1.2 = min R 1 ∧
    (runChecksum digest fname checksumInit R).2 =
      List.replicate R (Resp.err 500) := by
  cases R with
  | zero => simp [runChecksum, checksumInit]
  | succ R =>
    have hstep : checksumReq digest fname checksumInit =
        ((⟨true, ""⟩, 1), Resp.err 500) := by
      simp [checksumReq, checksumOnce, checksumInit, h]
    constructor
    · simp [runChecksum, hstep, runChecksum_done digest fname ⟨true, ""⟩ 1 R rfl]
    · simp [runChecksum, hstep, runChecksum_done digest fname ⟨true, ""⟩ 1 R rfl,
        List.replicate_succ]

theorem checksum_failure_cached_witness :
    (runChecksum digestFailThenOk "g" checksumInit 3).1.2 = min 3 1 ∧
    (runChecksum digestFailThenOk "g" checksumInit 3).2 =
      List.replicate 3 (Resp.err 500) :=
  checksum_failure_cached digestFailThenOk "g" 3 rfl

/-- Claim C6, counterexample: the body of a successful checksum response is
`"<hex-digest>  <base-name>\n"` — hex digest first, two spaces, no algorithm
name — not the `"<algorithm> <hex-digest> <base-name>\n"` line the claim
states; at hex digest "ab" and name "f.txt" the two strings differ. -/
theorem checksum_format_cex :
    (runChecksum digestConstW "f.txt" checksumInit 1).2 = [Resp.ok "ab  f.txt\n"] ∧
    mkSum "ab" "f.txt" = "ab  f.txt\n" ∧
    specChecksumLine "md5" "ab" "f.txt" = "md5 ab f.txt\n" ∧
    mkSum "ab" "f.txt" ≠ specChecksumLine "md5" "ab" "f.txt" := by decide

/-- Claim C6 (amended): a successful response for one algorithm's checksum is
the single line `"<hex-digest>  <base-name>\n"`: the body begins with the hex
digest (not with the algorithm's name) followed by two spaces, the payload's
base name and a newline. -/
theorem checksum_format_spec (digest : Nat → Option String) (fname hex : String)
    (h : digest 0 = some hex) :
    ∃ rest, (checksumReq digest fname checksumInit).2 = Resp.ok (hex ++ rest) ∧
      hex ++ rest = mkSum hex fname ∧ rest = "  " ++ (fname ++ "\n") := by
  have hassoc : mkSum hex fname = hex ++ ("  " ++ (fname ++ "\n")) := by
    simp [mkSum, String.append_assoc]
  refine ⟨"  " ++ (fname ++ "\n"), ?_, hassoc.symm, rfl⟩
  have hstep : checksumReq digest fname checksumInit =
      ((⟨true, mkSum hex fname⟩, 1), Resp.ok (mkSum hex fname)) := by
    simp [checksumReq, checksumOnce, checksumInit, h, mkSum_ne_empty]
  rw [hstep, hassoc]

theorem checksum_format_spec_witness :
    ∃ rest, (checksumReq digestConstW "n" checksumInit).2 = Resp.ok ("ab" ++ rest) ∧
      "ab" ++ rest = mkSum "ab" "n" ∧ rest = "  " ++ ("n" ++ "\n") :=
  checksum_format_spec digestConstW "n" "ab" rfl

/-- The handlers `run()` registers on the HTTP mux. -/
inductive RouteH where
  | payload
  | notFound
  | checksum (algo : String)
deriving DecidableEq, Repr

/-- Go `http.ServeMux` pattern matching: a pattern ending in `/` matches
every path it prefixes; any other pattern matches only the exact path. -/
def patMatch (pat p : String) : Bool :=
  if pat.data.getLast? = some '/' then pat.data.isPrefixOf p.data
  else pat == p

/-- The route table registered by `run()` in `offer.go`: `/` serves the
payload, `/checksums` and `/checksums/` are registered to `sendError(404)`,
and only the four per-algorithm endpoints serve digests. -/
def muxTable : List (String × RouteH) :=
  [("/", RouteH.payload),
   ("/checksums", RouteH.notFound),
   ("/checksums/", RouteH.notFound),
   ("/checksums/md5", RouteH.checksum "md5"),
   ("/checksums/sha1", RouteH.checksum "sha1"),
   ("/checksums/sha256", RouteH.checksum "sha256"),
   ("/checksums/sha512", RouteH.checksum "sha512")]

/-- `ServeMux` picks, among the matching patterns, the one with the longest
path. -/
def muxPick : List (String × RouteH) → Option (String × RouteH)
  | [] => none
  | e :: t =>
    match muxPick t with
    | none => some e
    | some b => if b.1.length < e.1.length then some e else some b

/-- The handler the mux dispatches a request path to. -/
def muxLookup (p : String) : Option RouteH :=
  (muxPick (muxTable.filter fun e => patMatch e.1 p)).map fun e => e.2

/-- `sendError(code)`: a handler that unconditionally answers the status page
for `code`. -/
def sendError (code : Nat) : Resp := Resp.err code

/-- Claim C7, counterexample: `GET /checksums` and `GET /checksums/` return
no aggregate of digest lines: `run()` registers both paths to
`sendError(404)`, so each is answered `404 Not Found` and nothing is
computed, concatenated or cached for them. -/
theorem checksums_aggregate_cex :
    muxLookup "/checksums" = some RouteH.notFound ∧
    muxLookup "/checksums/" = some RouteH.notFound ∧
    sendError 404 = Resp.err 404 := by decide

/-- Claim C7 (amended): `/checksums` and `/checksums/` are mapped to the
404 handler (there is no aggregate checksum endpoint in this revision); the
four per-algorithm paths are the only checksum routes, and every other
`/checksums/...` path falls through to the root payload route... a path such
as `/checksums/crc32` falls to the `/checksums/` 404 route. -/
theorem checksums_routes_spec :
    muxLookup "/checksums" = some RouteH.notFound ∧
    muxLookup "/checksums/" = some RouteH.notFound ∧
    muxLookup "/checksums/md5" = some (RouteH.checksum "md5") ∧
    muxLookup "/checksums/sha1" = some (RouteH.checksum "sha1") ∧
    muxLookup "/checksums/sha256" = some (RouteH.checksum "sha256") ∧
    muxLookup "/checksums/sha512" = some (RouteH.checksum "sha512") ∧
    muxLookup "/checksums/crc32" = some RouteH.notFound ∧
    muxLookup "/" = some RouteH.payload ∧
    sendError 404 = Resp.err 404 := by decide

/-- The payload record of `offer.go` (`type file struct`). -/
structure GoFile where
  path : String
  name : String
  buf : List Nat
  isBuffered : Bool
  isTemp : Bool
  isStream : Bool
deriving DecidableEq, Repr

/-- The authoritative byte source a reader returned by `(f file) reader()`
draws from. -/
inductive Source where
  | stream
  | buffer (buf : List Nat)
  | disk (path : String)
deriving DecidableEq, Repr

/-- `func (f file) reader() (io.Reader, error)` from `offer.go`: for a
stream payload it returns the live stream handle itself; for a buffered
payload a fresh `bytes.Reader` over the buffer; otherwise it opens the disk
path. -/
def GoFile.reader (f : GoFile) : Source :=
  if f.isStream then Source.stream
  else if f.isBuffered then Source.buffer f.buf
  else Source.disk f.path

/-- The byte source `sendChecksum`'s `once.Do` body digests: it calls
`f.reader()` and `io.Copy`s everything from whatever that returns, with no
guard on the payload's origin. -/
def sendChecksumInput (f : GoFile) : Source := f.reader

/-- The stream-mode payload `offerStdin` builds under `-s`:
`file{path: "-", name: <synthesized>, stream: os.Stdin, isStream: true}`. -/
def streamPayload : GoFile :=
  { path := "-", name := "offer-123", buf := [], isBuffered := false,
    isTemp := false, isStream := true }

/-- Claim C8 (violated by the code): handling a checksum request on a
live-stream payload DOES consume the stream handle — `f.reader()` returns
the stream itself when `isStream` is set, and `sendChecksum` digests all of
it, so the one-shot source is read by the checksum computation. -/
theorem sendChecksum_reads_stream :
    sendChecksumInput streamPayload = Source.stream ∧
    streamPayload.isStream = true := by decide

/-- The end of `run()` after the server has drained:
`if f.isTemp && !*flagKeep { return os.Remove(f.path) }; return nil`.
`rmErr` is the error `os.Remove(f.path)` would report; the result is the
list of removed paths and `run()`'s return value. -/
def shutdownCleanup (f : GoFile) (keep : Bool) (rmErr : Option String) :
    List String × Option String :=
  if f.isTemp && !keep then ([f.path], rmErr) else ([], none)

/-- `main()`: `if err := run(); err != nil { ...; os.Exit(1) }` — the
process exit code as a function of `run()`'s return value. -/
def exitCode (e : Option String) : Nat :=
  match e with
  | some _ => 1
  | none => 0

/-- Claim C9: after the server has drained, when the payload is temporary
and keep was not requested, exactly the file at the payload's recorded disk
path is removed and the removal's error becomes `run()`'s return value — a
failure makes the process exit 1, success exit 0; when the payload is not
temporary or keep was requested, nothing is removed and the process exits
0. -/
theorem run_cleanup_spec (f : GoFile) (keep : Bool) (rmErr : Option String) :
    (f.isTemp = true → keep = false →
      shutdownCleanup f keep rmErr = ([f.path], rmErr)) ∧
    (f.isTemp = false ∨ keep = true →
      shutdownCleanup f keep rmErr = ([], none) ∧
      exitCode (shutdownCleanup f keep rmErr).2 = 0) ∧
    (∀ msg, rmErr = some msg → exitCode rmErr = 1) ∧
    (rmErr = none → exitCode rmErr = 0) := by
  refine ⟨?_, ?_, ?_, ?_⟩
  · intro h1 h2
    simp [shutdownCleanup, h1, h2]
  · intro h
    rcases h with h | h <;> simp [shutdownCleanup, exitCode, h]
  · intro msg h
    simp [exitCode, h]
  · intro h
    simp [exitCode, h]

/-- A temporary spooled-stdin payload. -/
def tmpPayload : GoFile :=
  { path := "/tmp/offer-1", name := "offer-1", buf := [], isBuffered := false,
    isTemp := true, isStream := false }

theorem run_cleanup_spec_witness :
    shutdownCleanup tmpPayload false (some "permission denied") =
      (["/tmp/offer-1"], some "permission denied") ∧
    exitCode (some "permission denied") = 1 := by
  have h := run_cleanup_spec tmpPayload false (some "permission denied")
  exact ⟨h.1 rfl rfl, h.2.2.1 "permission denied" rfl⟩

/-- A request as the authentication wrapper sees it: the result of
`r.BasicAuth()` — `none` when `ok` is false, otherwise the supplied user and
password pair. -/
structure Req where
  cred : Option (String × String)
deriving DecidableEq, Repr

/-- A response as the authentication and admission wrappers produce it: the
status code and whether a `WWW-Authenticate` challenge header was added. -/
structure HResp where
  status : Nat
  wwwAuthenticate : Bool
deriving DecidableEq, Repr

/-- Whether `ok && u == user && p == pass` holds for a request. -/
def credOK (r : Req) (user pass : String) : Bool :=
  match r.cred with
  | some (u, pw) => u == user && pw == pass
  | none => false

/-- `basicAuth(user, pass, h)` from `offer.go`: an empty user or password
disables authentication entirely (`return h`); otherwise a request failing
the credential check gets a `WWW-Authenticate` header and the 401 status
page, and `h` never runs for it. -/
def basicAuth (user pass : String) (h : Req → Gate → HResp × Gate) :
    Req → Gate → HResp × Gate :=
  if user = "" ∨ pass = "" then h
  else fun r g =>
    if credOK r user pass then h r g
    else ({ status := 401, wwwAuthenticate := true }, g)

/-- The per-request behaviour of the wrapper built by `limitNReqs` (the
sequential view of one request: entry section, wrapped handler, then the
after-handler section), as the handler `basicAuth` wraps in `run()`. -/
def limitedServe (inner : Req → Nat) : Req → Gate → HResp × Gate :=
  fun r g =>
    let e := gateEnter g
    if e.1 then
      let x := gateExit e.2
      ({ status := inner r, wwwAuthenticate := false }, x.2)
    else ({ status := 503, wwwAuthenticate := false }, e.2)

/-- Claim C10: basic authentication sits outside the admission gate: with a
non-empty user and password configured, a request with missing or wrong
credentials is answered 401 with a `WWW-Authenticate` header while the gate
state (remaining budget and exhaustion signal) is untouched and no inner
handler runs (the response is the same whatever `inner` is); an empty
configured user or password makes the wrapper the identity. -/
theorem basicAuth_spec :
    (∀ user pass h, (user = "" ∨ pass = "") → basicAuth user pass h = h) ∧
    (∀ user pass inner r g, user ≠ "" → pass ≠ "" →
      credOK r user pass = false →
      basicAuth user pass (limitedServe inner) r g =
        ({ status := 401, wwwAuthenticate := true }, g)) := by
  constructor
  · intro user pass h hup
    simp [basicAuth, hup]
  · intro user pass inner r g hu hp hc
    simp [basicAuth, hu, hp, hc]

def innerOkW : Req → Nat := fun _ => 200

def reqNoCredW : Req := { cred := none }

theorem basicAuth_spec_witness :
    basicAuth "" "pw" (limitedServe innerOkW) = limitedServe innerOkW ∧
    basicAuth "alice" "pw" (limitedServe innerOkW) reqNoCredW ⟨5, false⟩ =
      ({ status := 401, wwwAuthenticate := true }, ⟨5, false⟩) := by
  refine ⟨?_, ?_⟩
  · exact basicAuth_spec.1 "" "pw" (limitedServe innerOkW) (Or.inl rfl)
  · exact basicAuth_spec.2 "alice" "pw" innerOkW reqNoCredW ⟨5, false⟩
      (by decide) (by decide) rfl
